import Mathlib

/-!
Verification of the room/session coordinator of the DemyatiV0 repository.

The backend (src/backend/src/index.ts together with src/backend/src/types.ts)
keeps an in-memory store of rooms, keyed by a 4-digit code, and mutates it
through the handlers for room creation (POST /rooms and the rooms:create
socket event), rooms:join, rooms:leave, rooms:updatePlayer and rooms:start.
This file gives a shallow embedding of those handlers and of the helper
functions generateRoomCode, validatePlayer and sanitizePlayer, and proves
the stated properties of the specification against them.

Untrusted player payloads arrive as dynamically typed JavaScript values, so
candidate player fields are modelled by a small inductive type of primitive
JavaScript values together with the coercions (String(...), Boolean(...),
truthiness, typeof checks, strict equality with a string) the source applies
to them.  JavaScript numbers are modelled as integers: none of the verified
handlers perform arithmetic on them.
-/

/-- A primitive JavaScript value, as carried by a field of an untrusted
candidate payload. -/
inductive JSVal where
  | undef : JSVal
  | null : JSVal
  | bool : Bool → JSVal
  | num : Int → JSVal
  | str : String → JSVal
deriving Repr, DecidableEq

/-- JavaScript truthiness of a primitive value: undefined, null, false, 0 and
the empty string are falsy, every other primitive value is truthy. -/
def JSVal.truthy : JSVal → Bool
  | .undef => false
  | .null => false
  | .bool b => b
  | .num n => decide (n ≠ 0)
  | .str s => decide (s ≠ "")

/-- The JavaScript String(...) coercion on a primitive value. -/
def JSVal.toStr : JSVal → String
  | .undef => "undefined"
  | .null => "null"
  | .bool true => "true"
  | .bool false => "false"
  | .num n => toString n
  | .str s => s

/-- The JavaScript expression a || b on primitive values: a when a is
truthy, b otherwise. -/
def JSVal.orElse (a b : JSVal) : JSVal :=
  if a.truthy then a else b

/-- JavaScript strict equality s === v between a known string s and a
primitive value v: true exactly when v is the same string. -/
def jsStrEq (s : String) (v : JSVal) : Bool :=
  match v with
  | .str t => decide (s = t)
  | _ => false

/-- typeof v === 'string'. -/
def JSVal.isStringTy : JSVal → Bool
  | .str _ => true
  | _ => false

/-- typeof v === 'boolean'. -/
def JSVal.isBooleanTy : JSVal → Bool
  | .bool _ => true
  | _ => false

/-- typeof v === 'number'. -/
def JSVal.isNumberTy : JSVal → Bool
  | .num _ => true
  | _ => false

/-- The string carried by a JSVal in the string case (only consulted on
code paths where a typeof check already established the value is a string). -/
def JSVal.strVal : JSVal → String
  | .str s => s
  | _ => ""

/-- Whitespace as stripped by String.prototype.trim. -/
def isJsSpace (c : Char) : Bool :=
  c = ' ' || c = '\t' || c = '\n' || c = '\r'

/-- Drop leading JavaScript whitespace from a character list. -/
def trimLeft (l : List Char) : List Char :=
  l.dropWhile isJsSpace

/-- Strip leading and trailing whitespace from a character list, as
String.prototype.trim does. -/
def trimChars (l : List Char) : List Char :=
  (trimLeft (trimLeft l).reverse).reverse

/-- The JavaScript s.trim() operation on strings. -/
def jsTrim (s : String) : String :=
  (trimChars s.data).asString

/-- An untrusted player-shaped payload: the six fields the backend reads,
each a dynamically typed JavaScript value (absent fields are undefined). -/
structure Candidate where
  id : JSVal
  name : JSVal
  color : JSVal
  ready : JSVal
  tile : JSVal
  isHost : JSVal
deriving Repr, DecidableEq

/-- A player record as stored in the room store.  Every record entering the
store passes through sanitizePlayer, so all six fields are present with
their coerced types (src/backend/src/types.ts, interface Player). -/
structure Player where
  id : String
  name : String
  color : String
  ready : Bool
  tile : Int
  isHost : Bool
deriving Repr, DecidableEq

/-- validatePlayer from src/backend/src/types.ts: the candidate must have a
string id, a string name, a string color and a boolean ready flag, with a
non-empty id and a name that is non-empty after trimming. -/
def validatePlayer (c : Candidate) : Bool :=
  c.id.isStringTy && c.name.isStringTy && c.color.isStringTy && c.ready.isBooleanTy
    && decide (c.id.strVal.length > 0) && decide ((jsTrim c.name.strVal).length > 0)

/-- sanitizePlayer from src/backend/src/types.ts: coerces id, name and color
to strings (with defaults for falsy values), trims the name, coerces ready
and isHost to booleans, and keeps tile only when it is a number, defaulting
to 1 otherwise. -/
def sanitizePlayer (c : Candidate) : Player :=
  { id := (c.id.orElse (.str "")).toStr
    name := jsTrim (c.name.orElse (.str "")).toStr
    color := (c.color.orElse (.str "#ef4444")).toStr
    ready := c.ready.truthy
    tile := match c.tile with
      | .num n => n
      | _ => 1
    isHost := c.isHost.truthy }

/-- View a stored player record back as a dynamically typed payload, as
happens when a stored record is fed to sanitizePlayer again. -/
def Player.toCandidate (p : Player) : Candidate :=
  { id := .str p.id
    name := .str p.name
    color := .str p.color
    ready := .bool p.ready
    tile := .num p.tile
    isHost := .bool p.isHost }

/-- A room as stored in the in-memory store (src/backend/src/types.ts,
interface Room): code, ordered player list, started flag and the optional
id of the creating host. -/
structure Room where
  code : String
  players : List Player
  started : Bool
  hostId : Option String
deriving Repr, DecidableEq

/-- The in-memory room store: a string-keyed association list mirroring the
JavaScript object rooms of src/backend/src/index.ts. -/
abbrev Store := List (String × Room)

/-- Key lookup in the store (rooms[code]). -/
def Store.get : Store → String → Option Room
  | [], _ => none
  | (c, r) :: rest, code => if c = code then some r else Store.get rest code

/-- Key assignment in the store (rooms[code] = room): replaces the binding
when the key is present, appends it otherwise. -/
def Store.set : Store → String → Room → Store
  | [], code, room => [(code, room)]
  | (c, r) :: rest, code, room =>
    if c = code then (code, room) :: rest else (c, r) :: Store.set rest code room

/-- Key removal from the store (delete rooms[code]). -/
def Store.delete : Store → String → Store
  | [], _ => []
  | (c, r) :: rest, code =>
    if c = code then Store.delete rest code else (c, r) :: Store.delete rest code

/-- The error outcomes a handler can report through its callback:
invalid player data, or an unknown room code. -/
inductive CoreError where
  | invalidPlayer : CoreError
  | roomNotFound : CoreError
deriving Repr, DecidableEq

/-- The {ok: true} acknowledgement sent by the rooms:leave handler. -/
structure LeaveAck where
  ok : Bool
deriving Repr, DecidableEq

/-- generateRoomCode from src/backend/src/types.ts:
Math.floor(1000 + Math.random() * 9000), a number in 1000..9999.  The
Math.random() draw is modelled by an arbitrary natural seed r, reduced
modulo the 9000-value code space. -/
def generateRoomCode (r : Nat) : Nat :=
  1000 + r % 9000

/-- The code-generation loop of the creation handlers: draw a code from the
seed stream g, and redraw while the store already has a room under it.  The
source loop is unbounded; fuel makes it total, with none for exhaustion. -/
def pickCode (store : Store) (g : Nat → Nat) : Nat → Nat → Option String
  | 0, _ => none
  | fuel + 1, i =>
    let code := toString (generateRoomCode (g i))
    if (store.get code).isSome then pickCode store g fuel (i + 1) else some code

/-- The room-creation handler (POST /rooms and the rooms:create socket
event, src/backend/src/index.ts): validate the host, generate a fresh code,
sanitize the host forcing tile to 1, and store the new room with
started = false and hostId = host.id.  The outer Option is none only when
the fuelled code-generation loop runs out (the source loops forever). -/
def createRoom (g : Nat → Nat) (fuel : Nat) (store : Store) (host : Candidate) :
    Option (Except CoreError (Store × Room)) :=
  if !validatePlayer host then some (.error .invalidPlayer)
  else
    match pickCode store g fuel 0 with
    | none => none
    | some code =>
      let sanitizedHost := sanitizePlayer host
      let hostWithTile := { sanitizedHost with tile := 1 }
      let room : Room :=
        { code := code, players := [hostWithTile], started := false,
          hostId := some host.id.strVal }
      some (.ok (store.set code room, room))

/-- The rooms:join handler (src/backend/src/index.ts): on a known room and a
valid candidate, remove every stored player whose id strictly equals the
candidate id, then append the sanitized candidate with tile forced to 1. -/
def joinRoom (store : Store) (code : String) (player : Candidate) :
    Except CoreError (Store × Room) :=
  match store.get code with
  | none => .error .roomNotFound
  | some room =>
    if !validatePlayer player then .error .invalidPlayer
    else
      let kept := room.players.filter (fun p => !jsStrEq p.id player.id)
      let sanitized := sanitizePlayer player
      let room1 := { room with players := kept ++ [{ sanitized with tile := 1 }] }
      .ok (store.set code room1, room1)

/-- The rooms:leave handler (src/backend/src/index.ts): filter the departing
id out of the player list, then delete the room only when the departing id
is the host id and no players remain; otherwise keep the mutated room. -/
def leaveRoom (store : Store) (code : String) (playerId : String) :
    Except CoreError (Store × LeaveAck) :=
  match store.get code with
  | none => .error .roomNotFound
  | some room =>
    let room1 := { room with players := room.players.filter (fun p => decide (p.id ≠ playerId)) }
    if room1.hostId = some playerId ∧ room1.players.length = 0 then
      .ok (store.delete code, { ok := true })
    else
      .ok (store.set code room1, { ok := true })

/-- The rooms:updatePlayer handler (src/backend/src/index.ts): on a known
room and a valid candidate, replace every stored player whose id strictly
equals the candidate id by the sanitized candidate. -/
def updatePlayer (store : Store) (code : String) (player : Candidate) :
    Except CoreError (Store × Room) :=
  match store.get code with
  | none => .error .roomNotFound
  | some room =>
    if !validatePlayer player then .error .invalidPlayer
    else
      let sanitized := sanitizePlayer player
      let room1 :=
        { room with players :=
            room.players.map (fun p => if jsStrEq p.id player.id then sanitized else p) }
      .ok (store.set code room1, room1)

/-- The rooms:start handler (src/backend/src/index.ts): on a known room, set
started to true and store the room back; no other condition is checked. -/
def startGame (store : Store) (code : String) :
    Except CoreError (Store × Room) :=
  match store.get code with
  | none => .error .roomNotFound
  | some room =>
    let room1 := { room with started := true }
    .ok (store.set code room1, room1)

/-! ### The unique-ids invariant across all operations -/

/-- The unique-ids invariant on one room: its players have pairwise-distinct
ids. -/
def RoomWF (room : Room) : Prop :=
  (room.players.map Player.id).Nodup

/-- Every room in the store satisfies the unique-ids invariant. -/
def StoreWF (store : Store) : Prop :=
  ∀ code room, store.get code = some room → RoomWF room

/-- One successful coordinator operation performed on the store. -/
inductive Step : Store → Store → Prop where
  | create (g : Nat → Nat) (fuel : Nat) (host : Candidate) (store store2 : Store) (room : Room) :
      createRoom g fuel store host = some (.ok (store2, room)) → Step store store2
  | join (store : Store) (code : String) (player : Candidate) (store2 : Store) (room : Room) :
      joinRoom store code player = .ok (store2, room) → Step store store2
  | leave (store : Store) (code playerId : String) (store2 : Store) (ack : LeaveAck) :
      leaveRoom store code playerId = .ok (store2, ack) → Step store store2
  | update (store : Store) (code : String) (player : Candidate) (store2 : Store) (room : Room) :
      updatePlayer store code player = .ok (store2, room) → Step store store2
  | start (store : Store) (code : String) (store2 : Store) (room : Room) :
      startGame store code = .ok (store2, room) → Step store store2

/-- A store reachable from the empty initial store by any sequence of
coordinator operations. -/
def ReachableStore (store : Store) : Prop :=
  Relation.ReflTransGen Step [] store


/-! ### Concrete instances: counterexamples and witnesses -/

def c1room : Room :=
  { code := "1234", players := [{ id := "h", name := "Host", color := "#ef4444", ready := false, tile := 1, isHost := true }], started := false, hostId := some "h" }

def c1store : Store := [("1234", c1room)]

def c2host : Candidate :=
  { id := .str "h1", name := .str "Host", color := .str "#ef4444", ready := .bool true, tile := .undef, isHost := .undef }

def c2room : Room :=
  { code := "1000", players := [{ id := "h1", name := "Host", color := "#ef4444", ready := true, tile := 1, isHost := false }], started := false, hostId := some "h1" }

def c3room : Room :=
  { code := "1234", players := [{ id := "p1", name := "Ann", color := "#ef4444", ready := true, tile := 42, isHost := false }], started := false, hostId := some "p1" }

def c3store : Store := [("1234", c3room)]

def c3cand : Candidate :=
  { id := .str "p1", name := .str "Ann", color := .str "#06b6d4", ready := .bool false, tile := .undef, isHost := .bool false }

def c4host : Candidate :=
  { id := .str "h1", name := .str "Host", color := .str "#ef4444", ready := .bool false, tile := .undef, isHost := .bool true }

def c4room : Room :=
  { code := "1000", players := [{ id := "h1", name := "Host", color := "#ef4444", ready := false, tile := 1, isHost := true }], started := false, hostId := some "h1" }

def c5room : Room :=
  { code := "1234", players := [{ id := "p1", name := "Solo", color := "#ef4444", ready := false, tile := 1, isHost := true }], started := false, hostId := some "p1" }

def c5store : Store := [("1234", c5room)]

def c6room : Room :=
  { code := "1234", players := [], started := false, hostId := some "h" }

def c6store : Store := [("1234", c6room)]

def c6broom : Room :=
  { code := "5678", players := [{ id := "p1", name := "Ann", color := "#ef4444", ready := false, tile := 1, isHost := false }], started := false, hostId := some "h" }

def c6bstore : Store := [("5678", c6broom)]

def c7room : Room :=
  { code := "1234", players := [{ id := "p1", name := "Ann", color := "#ef4444", ready := false, tile := 1, isHost := false }], started := false, hostId := some "p1" }

def c7store : Store := [("1234", c7room)]

def c7cand : Candidate :=
  { id := .str "p1", name := .str "Ann", color := .str "#ef4444", ready := .bool false, tile := .num 500, isHost := .bool false }

def c7room2 : Room :=
  { code := "1234", players := [{ id := "p1", name := "Ann", color := "#ef4444", ready := false, tile := 500, isHost := false }], started := false, hostId := some "p1" }

def c7chost : Candidate :=
  { id := .str "h9", name := .str "Hope", color := .str "#ef4444", ready := .bool false, tile := .num 55, isHost := .bool true }

def c7croom : Room :=
  { code := "1000", players := [{ id := "h9", name := "Hope", color := "#ef4444", ready := false, tile := 1, isHost := true }], started := false, hostId := some "h9" }

def c7jcand : Candidate :=
  { id := .str "p2", name := .str "Bob", color := .str "#06b6d4", ready := .bool false, tile := .num 77, isHost := .bool false }

def c7jroom : Room :=
  { code := "1234", players := [{ id := "p1", name := "Ann", color := "#ef4444", ready := false, tile := 1, isHost := false }, { id := "p2", name := "Bob", color := "#06b6d4", ready := false, tile := 1, isHost := false }], started := false, hostId := some "p1" }

def c9room : Room :=
  { code := "1234", players := [{ id := "p1", name := "Ann", color := "#ef4444", ready := true, tile := 7, isHost := true }, { id := "p2", name := "Bob", color := "#06b6d4", ready := false, tile := 3, isHost := false }], started := false, hostId := some "p1" }

def c9store : Store := [("1234", c9room)]

def c9cand : Candidate :=
  { id := .str "p1", name := .str "Ann", color := .str "#ef4444", ready := .bool true, tile := .undef, isHost := .bool true }

def c9q : Player :=
  { id := "p1", name := "Ann", color := "#ef4444", ready := true, tile := 7, isHost := true }

def c10room : Room :=
  { code := "1234", players := [{ id := "p1", name := "Ann", color := "#ef4444", ready := false, tile := 5, isHost := true }], started := false, hostId := some "p1" }

def c10store : Store := [("1234", c10room)]

def c10cand : Candidate :=
  { id := .str "zz", name := .str "Zed", color := .str "#84cc16", ready := .bool true, tile := .num 9, isHost := .bool false }


/-! ### Basic lemmas about the JavaScript value model -/

theorem dropWhile_head_false {α : Type} {p : α → Bool} {l : List α} {a : α}
    (h : (l.dropWhile p).head? = some a) : p a = false := by
  induction l with
  | nil => simp at h
  | cons x xs ih =>
    rw [List.dropWhile_cons] at h
    by_cases hx : p x = true
    · rw [if_pos hx] at h
      exact ih h
    · rw [if_neg hx] at h
      have hxa : x = a := by simpa using h
      cases hpx : p x with
      | true => exact absurd hpx hx
      | false => rw [← hxa]; exact hpx

theorem dropWhile_eq_self_of_head {α : Type} {p : α → Bool} {l : List α}
    (h : ∀ a, l.head? = some a → p a = false) : l.dropWhile p = l := by
  cases l with
  | nil => rfl
  | cons x xs => rw [List.dropWhile_cons, h x rfl]; simp

theorem trimLeft_idem (l : List Char) : trimLeft (trimLeft l) = trimLeft l := by
  unfold trimLeft
  cases hd : l.dropWhile isJsSpace with
  | nil => rfl
  | cons b t =>
    apply dropWhile_eq_self_of_head
    intro a ha
    have hba : b = a := by simpa using ha
    subst hba
    exact dropWhile_head_false (l := l) (by rw [hd]; rfl)

theorem trimChars_idem (l : List Char) : trimChars (trimChars l) = trimChars l := by
  unfold trimChars
  have hstep : trimLeft ((trimLeft (trimLeft l).reverse).reverse) =
      (trimLeft (trimLeft l).reverse).reverse := by
    set m := trimLeft l with hm
    cases hB : (trimLeft m.reverse).reverse with
    | nil => rfl
    | cons b t =>
      apply dropWhile_eq_self_of_head
      intro a ha
      have hba : b = a := by simpa using ha
      subst hba
      have hsplit : m = (trimLeft m.reverse).reverse ++ (m.reverse.takeWhile isJsSpace).reverse := by
        conv_lhs => rw [← List.reverse_reverse m,
          ← List.takeWhile_append_dropWhile (p := isJsSpace) (l := m.reverse)]
        rw [List.reverse_append]
        rfl
      have hhead : m.head? = some b := by
        rw [hsplit, List.head?_append, hB]
        rfl
      have : isJsSpace b = false := dropWhile_head_false (l := l) (p := isJsSpace) hhead
      exact this
  rw [hstep, List.reverse_reverse, trimLeft_idem]

theorem jsTrim_idem (s : String) : jsTrim (jsTrim s) = jsTrim s := by
  show ((trimChars (trimChars s.data).asString.data).asString = _)
  have : (trimChars s.data).asString.data = trimChars s.data := rfl
  rw [this, trimChars_idem]
  rfl

theorem toDigitsCore_length_le (b : Nat) (fuel : Nat) :
    ∀ (n : Nat) (ds : List Char), ds.length ≤ (Nat.toDigitsCore b fuel n ds).length := by
  induction fuel with
  | zero => intro n ds; simp [Nat.toDigitsCore]
  | succ fuel ih =>
    intro n ds
    simp only [Nat.toDigitsCore]
    split
    · simp
    · calc ds.length ≤ (Nat.digitChar (n % b) :: ds).length := by simp
        _ ≤ _ := ih (n / b) _

theorem toDigitsCore_length_pos (b : Nat) (fuel : Nat) (n : Nat) (ds : List Char)
    (h : 0 < fuel) : ds.length < (Nat.toDigitsCore b fuel n ds).length := by
  cases fuel with
  | zero => omega
  | succ fuel =>
    simp only [Nat.toDigitsCore]
    split
    · simp
    · calc ds.length < (Nat.digitChar (n % b) :: ds).length := by simp
        _ ≤ _ := toDigitsCore_length_le b fuel (n / b) _

theorem natRepr_ne_empty (n : Nat) : Nat.repr n ≠ "" := by
  intro h
  have hlen : (Nat.repr n).length = 0 := by rw [h]; rfl
  have : (0 : Nat) < (Nat.toDigits 10 n).length := by
    have := toDigitsCore_length_pos 10 (n + 1) n [] (by omega)
    simpa using this
  have hr : (Nat.repr n).length = (Nat.toDigits 10 n).length := rfl
  omega

theorem intRepr_ne_empty (n : Int) : Int.repr n ≠ "" := by
  cases n with
  | ofNat m => exact natRepr_ne_empty m
  | negSucc m =>
    intro h
    have : (Int.repr (.negSucc m)).length = 0 := by rw [h]; rfl
    rw [show Int.repr (.negSucc m) = "-" ++ Nat.repr (m + 1) from rfl,
      String.length_append] at this
    have : ("-" : String).length = 1 := rfl
    omega

theorem truthy_toStr_ne_empty (v : JSVal) (h : v.truthy = true) : v.toStr ≠ "" := by
  cases v with
  | undef => simp [JSVal.truthy] at h
  | null => simp [JSVal.truthy] at h
  | bool b =>
    cases b with
    | true => intro hc; exact absurd hc (by decide)
    | false => simp [JSVal.truthy] at h
  | num n =>
    show toString n ≠ ""
    exact intRepr_ne_empty n
  | str s =>
    simp [JSVal.truthy] at h
    exact h

theorem orElse_str_toStr (s t : String) :
    ((JSVal.str s).orElse (.str t)).toStr = if s = "" then t else s := by
  simp only [JSVal.orElse, JSVal.truthy]
  by_cases h : s = ""
  · simp [h, JSVal.toStr]
  · simp [h, JSVal.toStr]

theorem sanitize_color_ne_empty (c : Candidate) : (sanitizePlayer c).color ≠ "" := by
  show (c.color.orElse (.str "#ef4444")).toStr ≠ ""
  unfold JSVal.orElse
  by_cases h : c.color.truthy = true
  · rw [if_pos h]
    exact truthy_toStr_ne_empty c.color h
  · rw [if_neg h]
    decide

/-- C8: sanitizePlayer is total by construction (it is a Lean function on
candidates), and running it a second time on its own output changes
nothing: the id, name and color coercions, the trim, the boolean coercions
and the tile default are all stable on already-sanitized records. -/
theorem sanitizePlayer_idempotent (c : Candidate) :
    sanitizePlayer (sanitizePlayer c).toCandidate = sanitizePlayer c := by
  have hcolor := sanitize_color_ne_empty c
  cases hp : sanitizePlayer c with
  | mk id name color ready tile isHost =>
    rw [hp] at hcolor
    simp only at hcolor
    have hname : name = jsTrim (c.name.orElse (.str "")).toStr := by
      have := congrArg Player.name hp
      simpa [sanitizePlayer] using this.symm
    unfold Player.toCandidate sanitizePlayer
    rw [Player.mk.injEq]
    refine ⟨?_, ?_, ?_, rfl, rfl, rfl⟩
    · rw [orElse_str_toStr]
      by_cases h : id = "" <;> simp [h]
    · rw [orElse_str_toStr]
      by_cases h : name = ""
      · rw [if_pos h, h]
        decide
      · rw [if_neg h, hname, jsTrim_idem, ← hname]
    · rw [orElse_str_toStr, if_neg hcolor]

/-! ### Store lemmas -/

theorem Store.get_set (s : Store) (c : String) (r : Room) (c2 : String) :
    (s.set c r).get c2 = if c = c2 then some r else s.get c2 := by
  induction s with
  | nil => simp [Store.set, Store.get]
  | cons e rest ih =>
    obtain ⟨ec, er⟩ := e
    by_cases hec : ec = c
    · subst hec
      simp only [Store.set, if_pos rfl, Store.get]
      by_cases h2 : ec = c2 <;> simp [h2]
    · simp only [Store.set, if_neg hec, Store.get, ih]
      by_cases h2 : ec = c2 <;> by_cases h3 : c = c2
      · exact absurd (h2.trans h3.symm) hec
      · simp [h2, h3]
      · simp [h2, h3]
      · simp [h2, h3]

theorem Store.get_delete (s : Store) (c : String) (c2 : String) :
    (s.delete c).get c2 = if c = c2 then none else s.get c2 := by
  induction s with
  | nil => simp [Store.delete, Store.get]
  | cons e rest ih =>
    obtain ⟨ec, er⟩ := e
    by_cases hec : ec = c
    · subst hec
      have hdel : Store.delete ((ec, er) :: rest) ec = Store.delete rest ec := by
        simp [Store.delete]
      rw [hdel, ih]
      by_cases h2 : ec = c2 <;> simp [Store.get, h2]
    · simp only [Store.delete, if_neg hec, Store.get, ih]
      by_cases h2 : ec = c2 <;> by_cases h3 : c = c2
      · exact absurd (h2.trans h3.symm) hec
      · simp [h2, h3]
      · simp [h2, h3]
      · simp [h2, h3]

theorem Store.set_set_self (s : Store) (c : String) (r : Room) :
    (s.set c r).set c r = s.set c r := by
  induction s with
  | nil => simp [Store.set]
  | cons e rest ih =>
    obtain ⟨ec, er⟩ := e
    by_cases hec : ec = c
    · subst hec
      simp [Store.set]
    · simp [Store.set, hec, ih]

/-! ### Validation lemmas -/

theorem validate_id_str {c : Candidate} (h : validatePlayer c = true) :
    ∃ s, c.id = .str s ∧ s ≠ "" := by
  unfold validatePlayer at h
  simp only [Bool.and_eq_true, decide_eq_true_eq] at h
  obtain ⟨⟨⟨⟨⟨hid, _⟩, _⟩, _⟩, hlen⟩, _⟩ := h
  cases hv : c.id with
  | str s =>
    refine ⟨s, rfl, ?_⟩
    intro hs
    rw [hv] at hlen
    rw [show (JSVal.str s).strVal = s from rfl, hs] at hlen
    simp at hlen
  | undef => rw [hv] at hid; simp [JSVal.isStringTy] at hid
  | null => rw [hv] at hid; simp [JSVal.isStringTy] at hid
  | bool b => rw [hv] at hid; simp [JSVal.isStringTy] at hid
  | num n => rw [hv] at hid; simp [JSVal.isStringTy] at hid

theorem sanitize_id_of_valid {c : Candidate} (h : validatePlayer c = true) :
    (sanitizePlayer c).id = c.id.strVal := by
  obtain ⟨s, hid, hne⟩ := validate_id_str h
  show (c.id.orElse (.str "")).toStr = c.id.strVal
  rw [hid, orElse_str_toStr, if_neg hne]
  rfl

theorem jsStrEq_of_valid {c : Candidate} (h : validatePlayer c = true) (s : String) :
    jsStrEq s c.id = decide (s = c.id.strVal) := by
  obtain ⟨t, hid, _⟩ := validate_id_str h
  rw [hid]
  rfl

/-! ### Room codes are fresh 4-digit numeric strings -/

theorem digitChar_isDigit (m : Nat) (h : m < 10) : (Nat.digitChar m).isDigit = true := by
  interval_cases m <;> decide

theorem toDigitsCore_digits (fuel : Nat) :
    ∀ (n : Nat) (ds : List Char), (∀ ch ∈ ds, ch.isDigit = true) →
      ∀ ch ∈ Nat.toDigitsCore 10 fuel n ds, ch.isDigit = true := by
  induction fuel with
  | zero =>
    intro n ds hds
    simpa [Nat.toDigitsCore] using hds
  | succ fuel ih =>
    intro n ds hds
    have hd : (Nat.digitChar (n % 10)).isDigit = true :=
      digitChar_isDigit _ (Nat.mod_lt _ (by omega))
    have hcons : ∀ ch ∈ Nat.digitChar (n % 10) :: ds, ch.isDigit = true := by
      intro ch hch
      rcases List.mem_cons.mp hch with h | h
      · rw [h]; exact hd
      · exact hds ch h
    simp only [Nat.toDigitsCore]
    split
    · exact hcons
    · exact ih (n / 10) _ hcons

theorem toDigitsCore_length_exact :
    ∀ (k fuel n : Nat) (ds : List Char), k < fuel → 10 ^ k ≤ n → n < 10 ^ (k + 1) →
      (Nat.toDigitsCore 10 fuel n ds).length = ds.length + k + 1 := by
  intro k
  induction k with
  | zero =>
    intro fuel n ds hf h1 h2
    cases fuel with
    | zero => omega
    | succ fuel =>
      have hdiv : n / 10 = 0 := Nat.div_eq_of_lt (by simpa using h2)
      simp only [Nat.toDigitsCore]
      rw [if_pos hdiv]
      simp
  | succ k ih =>
    intro fuel n ds hf h1 h2
    cases fuel with
    | zero => omega
    | succ fuel =>
      have hpow : (10 : Nat) ^ (k + 1) = 10 ^ k * 10 := by ring
      have hpow2 : (10 : Nat) ^ (k + 2) = 10 ^ (k + 1) * 10 := by ring
      have hn10 : 10 ^ k ≤ n / 10 := by
        rw [Nat.le_div_iff_mul_le (by omega)]
        omega
      have hn10two : n / 10 < 10 ^ (k + 1) := by
        rw [Nat.div_lt_iff_lt_mul (by omega)]
        omega
      have hone : 1 ≤ (10 : Nat) ^ k := Nat.one_le_pow _ _ (by omega)
      have hne : ¬(n / 10 = 0) := by omega
      simp only [Nat.toDigitsCore]
      rw [if_neg hne, ih fuel (n / 10) _ (by omega) hn10 hn10two]
      simp only [List.length_cons]
      omega

theorem natRepr_length_four {n : Nat} (h1 : 1000 ≤ n) (h2 : n < 10000) :
    (Nat.repr n).length = 4 := by
  show (Nat.toDigits 10 n).length = 4
  have := toDigitsCore_length_exact 3 (n + 1) n [] (by omega)
    (by norm_num; omega) (by norm_num; omega)
  simpa using this

theorem natRepr_digits (n : Nat) : ∀ ch ∈ (Nat.repr n).data, ch.isDigit = true := by
  show ∀ ch ∈ Nat.toDigits 10 n, ch.isDigit = true
  exact toDigitsCore_digits (n + 1) n [] (by simp)

theorem pickCode_spec (store : Store) (g : Nat → Nat) :
    ∀ (fuel i : Nat) (code : String), pickCode store g fuel i = some code →
      store.get code = none ∧ ∃ n, 1000 ≤ n ∧ n < 10000 ∧ code = toString n := by
  intro fuel
  induction fuel with
  | zero =>
    intro i code h
    simp [pickCode] at h
  | succ fuel ih =>
    intro i code h
    simp only [pickCode] at h
    split at h
    · exact ih (i + 1) code h
    · rename_i hnone
      have hcode : toString (generateRoomCode (g i)) = code := by
        simpa using h
      refine ⟨?_, generateRoomCode (g i), ?_, ?_, hcode.symm⟩
      · rw [← hcode]
        exact Option.not_isSome_iff_eq_none.mp hnone
      · unfold generateRoomCode; omega
      · unfold generateRoomCode
        have := Nat.mod_lt (g i) (y := 9000) (by omega)
        omega

/-! ### Claim theorems -/

/-- C2 (amended): for every host candidate accepted by validatePlayer, a
successful createRoom returns a Room whose code is a 4-character numeric
string that was not present in the store at call time, and whose players
list is exactly one record, the sanitized host with tile forced to 1 — so
its ready and isHost flags are the candidate's own coerced flags, not
constants.  The room starts unstarted with hostId = the candidate id, and
the new store is the old one with the room bound under its code. -/
theorem createRoom_spec (g : Nat → Nat) (fuel : Nat) (store : Store) (host : Candidate)
    (store2 : Store) (room : Room)
    (hvalid : validatePlayer host = true)
    (h : createRoom g fuel store host = some (.ok (store2, room))) :
    room.code.length = 4 ∧ (∀ ch ∈ room.code.data, ch.isDigit = true) ∧
    store.get room.code = none ∧
    room.players = [{ sanitizePlayer host with tile := 1 }] ∧
    room.started = false ∧ room.hostId = some host.id.strVal ∧
    store2 = store.set room.code room := by
  unfold createRoom at h
  rw [if_neg (by rw [hvalid]; simp)] at h
  cases hpc : pickCode store g fuel 0 with
  | none => rw [hpc] at h; simp at h
  | some code =>
    rw [hpc] at h
    simp only [Option.some.injEq, Except.ok.injEq, Prod.mk.injEq] at h
    obtain ⟨hs, hr⟩ := h
    obtain ⟨hget, n, hn1, hn2, hcode⟩ := pickCode_spec store g fuel 0 code hpc
    have hcode2 : room.code = code := by rw [← hr]
    have hlen : code.length = 4 := by
      rw [hcode]
      exact natRepr_length_four hn1 hn2
    have hdig : ∀ ch ∈ code.data, ch.isDigit = true := by
      rw [hcode]
      exact natRepr_digits n
    refine ⟨by rw [hcode2]; exact hlen, by rw [hcode2]; exact hdig,
      by rw [hcode2]; exact hget, by rw [← hr], by rw [← hr], by rw [← hr],
      by rw [hcode2, ← hs, hr]⟩

/-- C1: leaveRoom on a room present in the store always acknowledges with
ok = true, and it deletes the room exactly when the departing playerId is
the room's hostId and the player list is empty after the removal; in every
other case the mutated room is still in the store under its code. -/
theorem leaveRoom_delete_iff (store : Store) (code playerId : String) (room : Room)
    (hget : store.get code = some room) :
    ∃ store2, leaveRoom store code playerId = .ok (store2, { ok := true }) ∧
      (store2.get code = none ↔
        (room.hostId = some playerId ∧
          (room.players.filter (fun p => decide (p.id ≠ playerId))).length = 0)) ∧
      (¬(room.hostId = some playerId ∧
            (room.players.filter (fun p => decide (p.id ≠ playerId))).length = 0) →
        store2.get code =
          some { room with players := room.players.filter (fun p => decide (p.id ≠ playerId)) }) := by
  simp only [leaveRoom, hget]
  by_cases hcond : room.hostId = some playerId ∧
      (room.players.filter (fun p => decide (p.id ≠ playerId))).length = 0
  · rw [if_pos hcond]
    refine ⟨store.delete code, rfl, ?_, fun hc => absurd hcond hc⟩
    rw [Store.get_delete, if_pos rfl]
    exact iff_of_true rfl hcond
  · rw [if_neg hcond]
    refine ⟨_, rfl, ?_, fun _ => ?_⟩
    · rw [Store.get_set, if_pos rfl]
      exact iff_of_false (by simp) hcond
    · rw [Store.get_set, if_pos rfl]

/-- C5: startGame never inspects the player list: whenever the room code is
present it succeeds and returns the room with started set to true, whatever
the number of players or their ready flags; it fails, with RoomNotFound,
only when the code is absent from the store. -/
theorem startGame_unconditional (store : Store) (code : String) :
    (∀ room, store.get code = some room →
      startGame store code =
        .ok (store.set code { room with started := true }, { room with started := true })) ∧
    (store.get code = none → startGame store code = .error .roomNotFound) := by
  constructor
  · intro room hget
    unfold startGame
    rw [hget]
  · intro hget
    unfold startGame
    rw [hget]

/-- C10: updatePlayer with a valid candidate whose id matches no stored
player in the room succeeds, returning the room, and the player list comes
out completely unchanged: the unknown id is neither an error nor an
insertion. -/
theorem updatePlayer_unknown_id (store : Store) (code : String) (player : Candidate) (room : Room)
    (hget : store.get code = some room) (hvalid : validatePlayer player = true)
    (habsent : ∀ p ∈ room.players, p.id ≠ player.id.strVal) :
    updatePlayer store code player = .ok (store.set code room, room) := by
  have hmap : room.players.map
      (fun p => if jsStrEq p.id player.id then sanitizePlayer player else p) = room.players := by
    have hcongr : ∀ p ∈ room.players,
        (if jsStrEq p.id player.id then sanitizePlayer player else p) = id p := by
      intro p hp
      rw [jsStrEq_of_valid hvalid, decide_eq_false (habsent p hp)]
      simp
    rw [List.map_congr_left hcongr, List.map_id]
  simp only [updatePlayer, hget, hvalid, Bool.not_true, Bool.false_eq_true, if_false, hmap]

/-! ### Join: replacement semantics -/

theorem countP_eq_one_of_nodup {ps : List Player} {pid : String}
    (hnd : (ps.map Player.id).Nodup) (hmem : pid ∈ ps.map Player.id) :
    ps.countP (fun p => decide (p.id = pid)) = 1 := by
  induction ps with
  | nil => simp at hmem
  | cons q qs ih =>
    simp only [List.map_cons, List.nodup_cons] at hnd
    simp only [List.map_cons, List.mem_cons] at hmem
    rw [List.countP_cons]
    rcases hmem with h | h
    · have hz : qs.countP (fun p => decide (p.id = pid)) = 0 := by
        rw [List.countP_eq_zero]
        intro p hp hcontra
        rw [decide_eq_true_eq] at hcontra
        apply hnd.1
        rw [(hcontra.trans h).symm]
        exact List.mem_map_of_mem Player.id hp
      rw [hz, if_pos (by rw [decide_eq_true_eq]; exact h.symm)]
    · have hqne : ¬(q.id = pid) := by
        intro he
        exact hnd.1 (he ▸ h)
      rw [ih hnd.2 h, if_neg (by rw [decide_eq_true_eq]; exact hqne)]

theorem length_filter_not {α : Type} (p : α → Bool) (l : List α) :
    (l.filter (fun a => !p a)).length + l.countP p = l.length := by
  induction l with
  | nil => rfl
  | cons a l ih =>
    rw [List.countP_cons, List.filter_cons]
    cases hpa : p a <;> simp [hpa] <;> omega

theorem filter_jsStrEq_eq {ps : List Player} {player : Candidate}
    (hvalid : validatePlayer player = true) :
    ps.filter (fun p => !jsStrEq p.id player.id) =
      ps.filter (fun p => !decide (p.id = player.id.strVal)) := by
  apply List.filter_congr
  intro p hp
  rw [jsStrEq_of_valid hvalid]

theorem filter_ne_id_length {ps : List Player} {pid : String}
    (hnd : (ps.map Player.id).Nodup) (hmem : pid ∈ ps.map Player.id) :
    (ps.filter (fun p => !decide (p.id = pid))).length + 1 = ps.length := by
  have h1 := length_filter_not (fun p => decide (p.id = pid)) ps
  rw [countP_eq_one_of_nodup hnd hmem] at h1
  omega

theorem joinRoom_eq (store : Store) (code : String) (player : Candidate) (room : Room)
    (hget : store.get code = some room) (hvalid : validatePlayer player = true) :
    joinRoom store code player =
      .ok
        (store.set code
          { room with players := (room.players.filter (fun p => !jsStrEq p.id player.id) ++ [{ sanitizePlayer player with tile := 1 }]) },
          { room with players := (room.players.filter (fun p => !jsStrEq p.id player.id) ++ [{ sanitizePlayer player with tile := 1 }]) }) := by
  simp only [joinRoom, hget, hvalid, Bool.not_true, Bool.false_eq_true, if_false]

/-- C3: for a validated candidate whose id is already present in a room
with pairwise-distinct player ids, joinRoom keeps players.length unchanged
(the old record is filtered out and the sanitized replacement appended, not
duplicated) and the record stored under that id afterwards has tile 1. -/
theorem joinRoom_replaces_existing (store : Store) (code : String) (player : Candidate)
    (room : Room)
    (hget : store.get code = some room) (hvalid : validatePlayer player = true)
    (hnd : (room.players.map Player.id).Nodup)
    (hmem : player.id.strVal ∈ room.players.map Player.id) :
    ∃ store2 room2, joinRoom store code player = .ok (store2, room2) ∧
      room2.players.length = room.players.length ∧
      { sanitizePlayer player with tile := 1 } ∈ room2.players ∧
      ∀ p ∈ room2.players, p.id = player.id.strVal → p.tile = 1 := by
  refine ⟨_, _, joinRoom_eq store code player room hget hvalid, ?_, ?_, ?_⟩
  · show (room.players.filter (fun (p : Player) => !jsStrEq p.id player.id)
        ++ [{ sanitizePlayer player with tile := 1 }]).length = room.players.length
    rw [List.length_append, filter_jsStrEq_eq hvalid]
    have h1 := filter_ne_id_length hnd hmem
    simp only [List.length_singleton]
    omega
  · show { sanitizePlayer player with tile := 1 }
        ∈ room.players.filter (fun (p : Player) => !jsStrEq p.id player.id)
          ++ [{ sanitizePlayer player with tile := 1 }]
    exact List.mem_append_right _ (List.mem_singleton_self _)
  · intro p hp hpid
    rcases List.mem_append.mp hp with hmf | hms
    · have hpred := List.of_mem_filter hmf
      rw [jsStrEq_of_valid hvalid] at hpred
      rw [hpid] at hpred
      simp at hpred
    · rw [List.mem_singleton.mp hms]

/-- C9: when a validated candidate reconnects into a room (unique ids) in
which its id sits at a position that is not the last one, joinRoom puts the
replacement record at the last position of the list: after the join the
record carrying that id is at index length - 1 and at no earlier index, so
the original position is not preserved and any turn order derived from list
order is reshuffled. -/
theorem joinRoom_moves_reconnect_to_last (store : Store) (code : String) (player : Candidate)
    (room : Room) (i : Nat) (q : Player)
    (hget : store.get code = some room) (hvalid : validatePlayer player = true)
    (hnd : (room.players.map Player.id).Nodup)
    (hq : room.players[i]? = some q) (hqid : q.id = player.id.strVal)
    (hi : i + 1 < room.players.length) :
    ∃ store2 room2, joinRoom store code player = .ok (store2, room2) ∧
      room2.players.length = room.players.length ∧
      (∃ r, room2.players[room.players.length - 1]? = some r ∧
        r.id = player.id.strVal ∧ r.tile = 1) ∧
      (∀ j, j < room.players.length - 1 →
        ∀ r, room2.players[j]? = some r → r.id ≠ player.id.strVal) := by
  have hmem : player.id.strVal ∈ room.players.map Player.id := by
    rw [← hqid]
    exact List.mem_map_of_mem Player.id (List.getElem?_mem hq)
  have hflen : (room.players.filter
      (fun (p : Player) => !jsStrEq p.id player.id)).length = room.players.length - 1 := by
    rw [filter_jsStrEq_eq hvalid]
    have h1 := filter_ne_id_length hnd hmem
    omega
  refine ⟨_, _, joinRoom_eq store code player room hget hvalid, ?_, ?_, ?_⟩
  · show (room.players.filter (fun (p : Player) => !jsStrEq p.id player.id)
        ++ [{ sanitizePlayer player with tile := 1 }]).length = room.players.length
    rw [List.length_append, hflen, List.length_singleton]
    omega
  · show ∃ r, (room.players.filter (fun (p : Player) => !jsStrEq p.id player.id)
        ++ [{ sanitizePlayer player with tile := 1 }])[room.players.length - 1]?
        = some r ∧ r.id = player.id.strVal ∧ r.tile = 1
    refine ⟨{ sanitizePlayer player with tile := 1 }, ?_, ?_, rfl⟩
    · rw [← hflen]
      exact List.getElem?_concat_length _ _
    · show (sanitizePlayer player).id = player.id.strVal
      exact sanitize_id_of_valid hvalid
  · intro j hj r hr
    have hr2 : (room.players.filter (fun (p : Player) => !jsStrEq p.id player.id))[j]?
        = some r := by
      rw [show ((room.players.filter (fun (p : Player) => !jsStrEq p.id player.id)
          ++ [{ sanitizePlayer player with tile := 1 }])[j]? =
            if j < (room.players.filter (fun (p : Player) => !jsStrEq p.id player.id)).length
            then (room.players.filter (fun (p : Player) => !jsStrEq p.id player.id))[j]?
            else ([{ sanitizePlayer player with tile := 1 }] :
              List Player)[j - (room.players.filter
                (fun (p : Player) => !jsStrEq p.id player.id)).length]?)
          from List.getElem?_append, if_pos (by rw [hflen]; omega)] at hr
      exact hr
    have hmemf : r ∈ room.players.filter (fun (p : Player) => !jsStrEq p.id player.id) :=
      List.getElem?_mem hr2
    have hpred := List.of_mem_filter hmemf
    rw [jsStrEq_of_valid hvalid] at hpred
    intro hcontra
    rw [hcontra] at hpred
    simp at hpred

theorem StoreWF_set {store : Store} {code : String} {room : Room}
    (hwf : StoreWF store) (hroom : RoomWF room) : StoreWF (store.set code room) := by
  intro c r hget
  rw [Store.get_set] at hget
  by_cases h : code = c
  · rw [if_pos h] at hget
    cases hget
    exact hroom
  · rw [if_neg h] at hget
    exact hwf c r hget

theorem StoreWF_delete {store : Store} {code : String}
    (hwf : StoreWF store) : StoreWF (store.delete code) := by
  intro c r hget
  rw [Store.get_delete] at hget
  by_cases h : code = c
  · rw [if_pos h] at hget
    cases hget
  · rw [if_neg h] at hget
    exact hwf c r hget

theorem bool_eq_false_of_not_true {b : Bool} (h : ¬b = true) : b = false := by
  cases b
  · rfl
  · exact absurd rfl h

theorem createRoom_ok_valid {g : Nat → Nat} {fuel : Nat} {store : Store} {host : Candidate}
    {store2 : Store} {room : Room}
    (h : createRoom g fuel store host = some (.ok (store2, room))) :
    validatePlayer host = true := by
  by_cases hv : validatePlayer host = true
  · exact hv
  · have hvf := bool_eq_false_of_not_true hv
    simp [createRoom, hvf] at h

theorem joinRoom_ok_inv {store : Store} {code : String} {player : Candidate}
    {store2 : Store} {room2 : Room}
    (h : joinRoom store code player = .ok (store2, room2)) :
    ∃ room, store.get code = some room ∧ validatePlayer player = true ∧
      room2 = { room with players := (room.players.filter (fun p => !jsStrEq p.id player.id) ++ [{ sanitizePlayer player with tile := 1 }]) } ∧
      store2 = store.set code room2 := by
  cases hget : store.get code with
  | none => simp [joinRoom, hget] at h
  | some room =>
    by_cases hv : validatePlayer player = true
    · rw [joinRoom_eq store code player room hget hv] at h
      simp only [Except.ok.injEq, Prod.mk.injEq] at h
      exact ⟨room, rfl, hv, h.2.symm, by rw [← h.1, ← h.2]⟩
    · have hvf := bool_eq_false_of_not_true hv
      simp [joinRoom, hget, hvf] at h

theorem leaveRoom_ok_inv {store : Store} {code playerId : String}
    {store2 : Store} {ack : LeaveAck}
    (h : leaveRoom store code playerId = .ok (store2, ack)) :
    ∃ room, store.get code = some room ∧
      (store2 = store.delete code ∨
        store2 = store.set code { room with players := room.players.filter (fun p => decide (p.id ≠ playerId)) }) := by
  cases hget : store.get code with
  | none => simp [leaveRoom, hget] at h
  | some room =>
    simp only [leaveRoom, hget] at h
    split at h
    · simp only [Except.ok.injEq, Prod.mk.injEq] at h
      exact ⟨room, rfl, Or.inl h.1.symm⟩
    · simp only [Except.ok.injEq, Prod.mk.injEq] at h
      exact ⟨room, rfl, Or.inr h.1.symm⟩

theorem updatePlayer_ok_inv {store : Store} {code : String} {player : Candidate}
    {store2 : Store} {room2 : Room}
    (h : updatePlayer store code player = .ok (store2, room2)) :
    ∃ room, store.get code = some room ∧ validatePlayer player = true ∧
      room2 = { room with players := room.players.map (fun p => if jsStrEq p.id player.id then sanitizePlayer player else p) } ∧
      store2 = store.set code room2 := by
  cases hget : store.get code with
  | none => simp [updatePlayer, hget] at h
  | some room =>
    by_cases hv : validatePlayer player = true
    · simp only [updatePlayer, hget, hv, Bool.not_true, Bool.false_eq_true, if_false] at h
      simp only [Except.ok.injEq, Prod.mk.injEq] at h
      exact ⟨room, rfl, hv, h.2.symm, by rw [← h.1, ← h.2]⟩
    · have hvf := bool_eq_false_of_not_true hv
      simp [updatePlayer, hget, hvf] at h

theorem startGame_ok_inv {store : Store} {code : String}
    {store2 : Store} {room2 : Room}
    (h : startGame store code = .ok (store2, room2)) :
    ∃ room, store.get code = some room ∧ room2 = { room with started := true } ∧
      store2 = store.set code room2 := by
  cases hget : store.get code with
  | none => simp [startGame, hget] at h
  | some room =>
    simp only [startGame, hget] at h
    simp only [Except.ok.injEq, Prod.mk.injEq] at h
    exact ⟨room, rfl, h.2.symm, by rw [← h.1, ← h.2]⟩

theorem joined_players_nodup {room : Room} {player : Candidate}
    (hv : validatePlayer player = true) (hwr : RoomWF room) :
    RoomWF { room with players := (room.players.filter (fun p => !jsStrEq p.id player.id) ++ [{ sanitizePlayer player with tile := 1 }]) } := by
  unfold RoomWF at hwr ⊢
  show ((room.players.filter (fun (p : Player) => !jsStrEq p.id player.id)
      ++ [{ sanitizePlayer player with tile := 1 }]).map Player.id).Nodup
  rw [List.map_append]
  simp only [List.map_cons, List.map_nil]
  rw [(List.perm_append_singleton _ _).nodup_iff, List.nodup_cons]
  constructor
  · intro hmem
    obtain ⟨p, hpf, hpid⟩ := List.mem_map.mp hmem
    have hpred := List.of_mem_filter hpf
    rw [jsStrEq_of_valid hv] at hpred
    have hpid2 : p.id = player.id.strVal := by
      rw [hpid]
      show ({ sanitizePlayer player with tile := 1 } : Player).id = _
      exact sanitize_id_of_valid hv
    rw [hpid2] at hpred
    simp at hpred
  · exact List.Nodup.sublist ((List.filter_sublist _).map Player.id) hwr

theorem left_players_nodup {room : Room} {playerId : String} (hwr : RoomWF room) :
    RoomWF { room with players := room.players.filter (fun p => decide (p.id ≠ playerId)) } := by
  unfold RoomWF at hwr ⊢
  exact List.Nodup.sublist ((List.filter_sublist _).map Player.id) hwr

theorem updated_players_nodup {room : Room} {player : Candidate}
    (hv : validatePlayer player = true) (hwr : RoomWF room) :
    RoomWF { room with players := room.players.map (fun p => if jsStrEq p.id player.id then sanitizePlayer player else p) } := by
  unfold RoomWF at hwr ⊢
  show ((room.players.map (fun (p : Player) => if jsStrEq p.id player.id then sanitizePlayer player else p)).map Player.id).Nodup
  rw [List.map_map]
  have hcongr : room.players.map
      (Player.id ∘ fun (p : Player) => if jsStrEq p.id player.id then sanitizePlayer player else p)
      = room.players.map Player.id := by
    apply List.map_congr_left
    intro p hp
    show Player.id (if jsStrEq p.id player.id then sanitizePlayer player else p) = p.id
    by_cases hc : jsStrEq p.id player.id = true
    · rw [if_pos hc, sanitize_id_of_valid hv]
      rw [jsStrEq_of_valid hv, decide_eq_true_eq] at hc
      rw [hc]
    · rw [if_neg hc]
  rw [hcongr]
  exact hwr

theorem step_preserves_wf {s1 s2 : Store} (hstep : Step s1 s2) (hwf : StoreWF s1) :
    StoreWF s2 := by
  cases hstep with
  | create g fuel host store store2 room h =>
    have hv := createRoom_ok_valid h
    obtain ⟨_, _, _, hplayers, _, _, hset⟩ := createRoom_spec g fuel s1 host s2 room hv h
    rw [hset]
    apply StoreWF_set hwf
    unfold RoomWF
    rw [hplayers]
    simp
  | join store code player store2 room2 h =>
    obtain ⟨room, hget, hv, hroom2, hset⟩ := joinRoom_ok_inv h
    rw [hset]
    apply StoreWF_set hwf
    rw [hroom2]
    exact joined_players_nodup hv (hwf code room hget)
  | leave store code playerId store2 ack h =>
    obtain ⟨room, hget, hcase⟩ := leaveRoom_ok_inv h
    rcases hcase with hdel | hset
    · rw [hdel]
      exact StoreWF_delete hwf
    · rw [hset]
      exact StoreWF_set hwf (left_players_nodup (hwf code room hget))
  | update store code player store2 room2 h =>
    obtain ⟨room, hget, hv, hroom2, hset⟩ := updatePlayer_ok_inv h
    rw [hset]
    apply StoreWF_set hwf
    rw [hroom2]
    exact updated_players_nodup hv (hwf code room hget)
  | start store code store2 room2 h =>
    obtain ⟨room, hget, hroom2, hset⟩ := startGame_ok_inv h
    rw [hset]
    apply StoreWF_set hwf
    rw [hroom2]
    exact hwf code room hget

theorem reachable_store_wf {store : Store} (hreach : ReachableStore store) :
    StoreWF store := by
  unfold ReachableStore at hreach
  induction hreach with
  | refl =>
    intro c r hg
    simp [Store.get] at hg
  | tail hsteps hstep ih => exact step_preserves_wf hstep ih

/-- C4: every room in a store reachable from the empty store by any
sequence of createRoom, joinRoom, leaveRoom, updatePlayer and startGame
operations has pairwise-distinct player ids: creation stores a singleton,
join removes the candidate id before appending it, leave only removes,
update replaces records id-for-id, and start leaves the list untouched. -/
theorem reachable_store_unique_ids (store : Store) (code : String) (room : Room)
    (hreach : ReachableStore store) (hget : store.get code = some room) :
    (room.players.map Player.id).Nodup :=
  reachable_store_wf hreach code room hget

/-- C6 (amended): leaving with a playerId that is absent from the room's
player list is a no-op on the player list and acknowledges with ok = true,
and repeated identical calls behave the same; the room is kept in the store
in every case but one: when the absent playerId equals the room's hostId
and the player list is already empty, the room is deleted (explicit
host-leave of an empty room). -/
theorem leaveRoom_unknown_id (store : Store) (code playerId : String) (room : Room)
    (hget : store.get code = some room)
    (habsent : playerId ∉ room.players.map Player.id) :
    (room.hostId = some playerId ∧ room.players = [] →
      leaveRoom store code playerId = .ok (store.delete code, { ok := true }) ∧
      (store.delete code).get code = none) ∧
    (¬(room.hostId = some playerId ∧ room.players = []) →
      leaveRoom store code playerId = .ok (store.set code room, { ok := true }) ∧
      (store.set code room).get code = some room ∧
      leaveRoom (store.set code room) code playerId
        = .ok (store.set code room, { ok := true })) := by
  have hfilter : room.players.filter (fun p => decide (p.id ≠ playerId)) = room.players := by
    rw [List.filter_eq_self]
    intro p hp
    rw [decide_eq_true_eq]
    intro hpe
    exact habsent (hpe ▸ List.mem_map_of_mem Player.id hp)
  constructor
  · rintro ⟨h1, h2⟩
    have hcond : room.hostId = some playerId ∧
        (room.players.filter (fun p => decide (p.id ≠ playerId))).length = 0 := by
      refine ⟨h1, ?_⟩
      rw [hfilter, h2]
      rfl
    constructor
    · simp only [leaveRoom, hget]
      rw [if_pos hcond]
    · rw [Store.get_delete, if_pos rfl]
  · intro hc
    have hcond : ¬(room.hostId = some playerId ∧
        (room.players.filter (fun p => decide (p.id ≠ playerId))).length = 0) := by
      rintro ⟨h1, h2⟩
      rw [hfilter] at h2
      exact hc ⟨h1, List.length_eq_zero.mp h2⟩
    have hget2 : (store.set code room).get code = some room := by
      rw [Store.get_set, if_pos rfl]
    have hstep1 : leaveRoom store code playerId = .ok (store.set code room, { ok := true }) := by
      simp only [leaveRoom, hget]
      rw [if_neg hcond, hfilter]
    refine ⟨hstep1, hget2, ?_⟩
    have hstep2 : leaveRoom (store.set code room) code playerId
        = .ok ((store.set code room).set code room, { ok := true }) := by
      simp only [leaveRoom, hget2]
      rw [if_neg hcond, hfilter]
    rw [hstep2, Store.set_set_self]

/-- C7 (amended): the player records stored by createRoom and joinRoom
always carry tile = 1 (which lies in 1..200): creation stores exactly one
record with tile 1, and the record joinRoom appends has tile forced to 1.
updatePlayer enforces no such bound — see the counterexample, which stores
tile 500 from a validated candidate. -/
theorem tile_one_on_create_and_join (g : Nat → Nat) (fuel : Nat)
    (storeA storeB store2 store3 : Store) (host player : Candidate)
    (room room2 : Room) (code : String) :
    (createRoom g fuel storeA host = some (.ok (store2, room)) →
      room.players.map Player.tile = [1]) ∧
    (joinRoom storeB code player = .ok (store3, room2) →
      (room2.players.getLast?).map Player.tile = some (1 : Int)) := by
  constructor
  · intro h
    have hv := createRoom_ok_valid h
    obtain ⟨_, _, _, hplayers, _, _, _⟩ := createRoom_spec g fuel storeA host store2 room hv h
    rw [hplayers]
    rfl
  · intro h
    obtain ⟨roomB, hget, hv, hroom2, _⟩ := joinRoom_ok_inv h
    rw [hroom2]
    show ((roomB.players.filter (fun (p : Player) => !jsStrEq p.id player.id)
        ++ [{ sanitizePlayer player with tile := 1 }]).getLast?).map Player.tile = some (1 : Int)
    rw [List.getLast?_concat]
    rfl

/-- C2 counterexample: a validated host candidate carrying ready = true and
no isHost field is stored as-is by createRoom — the single stored record has
ready = true (not false) and isHost = false (not true), refuting the claim
that createRoom always stores ready=false, isHost=true. -/
theorem createRoom_keeps_candidate_flags :
    validatePlayer c2host = true ∧
    createRoom (fun _ => 0) 1 [] c2host = some (.ok ([("1000", c2room)], c2room)) ∧
    c2room.players.map Player.ready = [true] ∧
    c2room.players.map Player.isHost = [false] :=
  ⟨by decide, by rfl, rfl, rfl⟩

/-- C2 witness: the amended createRoom theorem instantiated on a concrete
creation from the empty store. -/
theorem createRoom_spec_witness :
    c2room.code.length = 4 ∧ (∀ ch ∈ c2room.code.data, ch.isDigit = true) ∧
    Store.get ([] : Store) c2room.code = none ∧
    c2room.players = [{ sanitizePlayer c2host with tile := 1 }] ∧
    c2room.started = false ∧ c2room.hostId = some c2host.id.strVal ∧
    ([("1000", c2room)] : Store) = Store.set ([] : Store) c2room.code c2room :=
  createRoom_spec (fun _ => 0) 1 [] c2host [("1000", c2room)] c2room (by decide) (by rfl)

/-- C1 witness: a host leaving a room in which it is the only player makes
the deletion condition true and the room disappears from the store. -/
theorem leaveRoom_delete_iff_witness :
    ∃ store2, leaveRoom c1store "1234" "h" = .ok (store2, { ok := true }) ∧
      store2.get "1234" = none := by
  obtain ⟨s2, heq, hiff, _⟩ := leaveRoom_delete_iff c1store "1234" "h" c1room (by rfl)
  exact ⟨s2, heq, hiff.mpr (by decide)⟩

/-- C3 witness: the replacement theorem instantiated on a one-player room
rejoined by the same id. -/
theorem joinRoom_replaces_existing_witness :
    ∃ store2 room2, joinRoom c3store "1234" c3cand = .ok (store2, room2) ∧
      room2.players.length = c3room.players.length ∧
      { sanitizePlayer c3cand with tile := 1 } ∈ room2.players ∧
      ∀ p ∈ room2.players, p.id = c3cand.id.strVal → p.tile = 1 :=
  joinRoom_replaces_existing c3store "1234" c3cand c3room (by rfl) (by decide) (by decide)
    (by decide)

/-- C4 witness: the invariant theorem applied to a store reached by one
concrete createRoom step from the empty store. -/
theorem reachable_store_unique_ids_witness :
    (c4room.players.map Player.id).Nodup :=
  reachable_store_unique_ids [("1000", c4room)] "1000" c4room
    (Relation.ReflTransGen.single
      (Step.create (fun _ => 0) 1 c4host [] [("1000", c4room)] c4room (by rfl)))
    (by rfl)

/-- C5 witness: starting a room holding a single not-ready player still
succeeds and sets started = true. -/
theorem startGame_unconditional_witness :
    startGame c5store "1234" =
      .ok (c5store.set "1234" { c5room with started := true }, { c5room with started := true }) :=
  (startGame_unconditional c5store "1234").1 c5room (by rfl)

/-- C6 counterexample: on a room whose player list is empty and whose
hostId is "h", leaveRoom with the absent playerId "h" deletes the room,
refuting the claim that a leave with an id not in the player list never
deletes the room. -/
theorem leaveRoom_unknown_host_id_deletes_empty_room :
    ("h" ∈ c6room.players.map Player.id → False) ∧
    leaveRoom c6store "1234" "h" = .ok (([] : Store), { ok := true }) ∧
    Store.get ([] : Store) "1234" = none :=
  ⟨by decide, by rfl, rfl⟩

/-- C6 witness: the amended theorem instantiated for an unknown id distinct
from the host of a non-empty room: the call is a kept no-op and repeating
it changes nothing. -/
theorem leaveRoom_unknown_id_witness :
    leaveRoom c6bstore "5678" "z" = .ok (c6bstore.set "5678" c6broom, { ok := true }) ∧
    (c6bstore.set "5678" c6broom).get "5678" = some c6broom ∧
    leaveRoom (c6bstore.set "5678" c6broom) "5678" "z"
      = .ok (c6bstore.set "5678" c6broom, { ok := true }) :=
  (leaveRoom_unknown_id c6bstore "5678" "z" c6broom (by rfl) (by decide)).2 (by decide)

/-- C7 counterexample: updatePlayer accepts a validated candidate carrying
tile = 500 and stores that record unchanged, so a stored tile escapes the
1..200 range claimed for every stored record. -/
theorem updatePlayer_stores_out_of_range_tile :
    validatePlayer c7cand = true ∧
    updatePlayer c7store "1234" c7cand = .ok ([("1234", c7room2)], c7room2) ∧
    c7room2.players.map Player.tile = [500] ∧ ¬((500 : Int) ≤ 200) :=
  ⟨by decide, by rfl, rfl, by decide⟩

/-- C7 witness: the amended tile theorem instantiated on one concrete
creation and one concrete join. -/
theorem tile_one_on_create_and_join_witness :
    c7croom.players.map Player.tile = [1] ∧
    (c7jroom.players.getLast?).map Player.tile = some (1 : Int) := by
  constructor
  · exact (tile_one_on_create_and_join (fun _ => 0) 1 [] c7store [("1000", c7croom)]
      [("1234", c7jroom)] c7chost c7jcand c7croom c7jroom "1234").1 (by rfl)
  · exact (tile_one_on_create_and_join (fun _ => 0) 1 [] c7store [("1000", c7croom)]
      [("1234", c7jroom)] c7chost c7jcand c7croom c7jroom "1234").2 (by rfl)

/-- C9 witness: rejoining a two-player room with the id stored at position
0 places the replacement at position 1, the last position. -/
theorem joinRoom_moves_reconnect_to_last_witness :
    ∃ store2 room2, joinRoom c9store "1234" c9cand = .ok (store2, room2) ∧
      room2.players.length = c9room.players.length ∧
      (∃ r, room2.players[c9room.players.length - 1]? = some r ∧
        r.id = c9cand.id.strVal ∧ r.tile = 1) ∧
      (∀ j, j < c9room.players.length - 1 →
        ∀ r, room2.players[j]? = some r → r.id ≠ c9cand.id.strVal) :=
  joinRoom_moves_reconnect_to_last c9store "1234" c9cand c9room 0 c9q (by rfl) (by decide)
    (by decide) (by rfl) (by decide) (by decide)

/-- C10 witness: updating a one-player room with a validated candidate
whose id matches nobody returns the room unchanged. -/
theorem updatePlayer_unknown_id_witness :
    updatePlayer c10store "1234" c10cand = .ok (c10store.set "1234" c10room, c10room) :=
  updatePlayer_unknown_id c10store "1234" c10cand c10room (by rfl) (by decide) (by decide)
